import Mathlib

set_option autoImplicit false
set_option maxHeartbeats 1000000

/-
Shallow embedding of scripts/generate-openapi/generate.py (mu-semtech/mu-search).

The script loads a JSON search configuration and compiles it into an OpenAPI
3.0 document.  JSON values are modelled by the inductive `Json`; Python dicts
(insertion ordered, unique keys) are modelled as ordered association lists.
File I/O (loading the configuration, writing the resulting document) is an
external collaborator and is not part of the compile operation modelled here;
the compile operation is `compileConfig`, returning `Except CompileError Json`.
Python exceptions abort the whole run, which `Except` models: an error result
carries no document.  Per the specification's error taxonomy, a failing lookup
in the `es_type_to_openapi_type` table (a `KeyError` on that dict) is the
`UnsupportedFieldType` error, and a failing access to the configuration's
required structure (`KeyError`/`TypeError`/`AttributeError` on the
configuration object) is the `MalformedConfiguration` error, tagged with the
key whose access failed.
-/

/-- A JSON value as produced by Python's json.load: objects are insertion
ordered association lists (Python dicts), arrays are lists.  Numbers are
modelled as integers; the configuration format only uses strings and objects
so the number representation is never load bearing. -/
inductive Json where
  | null : Json
  | bool (b : Bool) : Json
  | num (n : Int) : Json
  | str (s : String) : Json
  | arr (elems : List Json) : Json
  | obj (entries : List (String × Json)) : Json

/-- Lookup in an association list modelling a Python dict read `d[k]`
(first matching key; dicts have unique keys). -/
def assocGet (kvs : List (String × Json)) (k : String) : Option Json :=
  match kvs with
  | [] => none
  | (key, v) :: rest => if key = k then some v else assocGet rest k

/-- Insertion or overwrite, modelling a Python dict write `d[k] = v`:
an existing key keeps its position and gets the new value, a new key is
appended at the end. -/
def assocSet (kvs : List (String × Json)) (k : String) (v : Json) :
    List (String × Json) :=
  match kvs with
  | [] => [(k, v)]
  | (key, w) :: rest =>
      if key = k then (k, v) :: rest else (key, w) :: assocSet rest k v

/-- Reading a key from a JSON value: a dict read on an object, failure
(`none`) on anything else (Python raises `TypeError`/`KeyError`). -/
def Json.get? (j : Json) (k : String) : Option Json :=
  match j with
  | .obj kvs => assocGet kvs k
  | _ => none

/-- Writing a key into a JSON object value, modelling `v[k] = x` on a dict.
On a non-object the value is returned unchanged; the compiler only applies
this to freshly built one-key objects, so that branch is unreachable. -/
def Json.setKey (j : Json) (k : String) (v : Json) : Json :=
  match j with
  | .obj kvs => .obj (assocSet kvs k v)
  | _ => j

/-- Chained key access `j[k1][k2]...`. -/
def dig (j : Json) (ks : List String) : Option Json :=
  match ks with
  | [] => some j
  | k :: rest =>
      match j.get? k with
      | some v => dig v rest
      | none => none

/-- Lookup in a string-valued association list (the type-mapping table). -/
def strAssocGet (kvs : List (String × String)) (k : String) : Option String :=
  match kvs with
  | [] => none
  | (key, v) :: rest => if key = k then some v else strAssocGet rest k

/-- Models Python str() as used in the path f-string `f"/{type['type']}/search"`.
Scalar values follow Python exactly; composite values (lists, dicts), which a
well-formed configuration never uses as a type name, are abstracted to fixed
markers rather than Python's full repr rendering. -/
def pyStr (j : Json) : String :=
  match j with
  | .null => "None"
  | .bool b => if b then "True" else "False"
  | .num n => toString n
  | .str s => s
  | .arr _ => "[...]"
  | .obj _ => "\x7b...\x7d"

/-- The error taxonomy of the compile operation (specification section 7). -/
inductive CompileError where
  | UnsupportedFieldType (fieldType : String) : CompileError
  | MalformedConfiguration (missingKey : String) : CompileError

/-- The fixed type-mapping table `es_type_to_openapi_type` of generate.py. -/
def es_type_to_openapi_type : List (String × String) :=
  [("text", "string"), ("keyword", "string"), ("date", "string"),
   ("integer", "integer")]

/-- Models the expression `es_type_to_openapi_type[props["type"]]`: a failing
read of the field spec's "type" key is a MalformedConfiguration, a failing
lookup in the mapping table is an UnsupportedFieldType.  A non-string declared
type can never be a key of the table, hence is also an UnsupportedFieldType
(Python: `KeyError` on the table). -/
def mapFieldType (fieldSpec : Json) : Except CompileError String :=
  match fieldSpec.get? "type" with
  | none => .error (.MalformedConfiguration "type")
  | some (.str s) =>
      match strAssocGet es_type_to_openapi_type s with
      | some target => .ok target
      | none => .error (.UnsupportedFieldType s)
  | some v => .error (.UnsupportedFieldType (pyStr v))

/-- The function `search_conf_props_to_openapi_props` of generate.py: maps a
field mapping (dict of field name to field spec) to the dict of per-field
openapi schema fragments, in input order. -/
def search_conf_props_to_openapi_props (s_conf_props : List (String × Json)) :
    Except CompileError (List (String × Json)) :=
  match s_conf_props with
  | [] => .ok []
  | (key, fieldSpec) :: rest =>
      match mapFieldType fieldSpec with
      | .ok target =>
          match search_conf_props_to_openapi_props rest with
          | .ok restProps =>
              .ok ((key, Json.obj [("type", Json.str target)]) :: restProps)
          | .error e => .error e
      | .error e => .error e

/-- The first element of `STATIC_PARAMETERS` of generate.py (the `page`
query parameter). -/
def pageParameter : Json :=
  .obj [
    ("in", .str "query"),
    ("name", .str "page"),
    ("description", .str "For more info, read the mu-search documentation on [Pagination](https://github.com/mu-semtech/mu-search#pagination)."),
    ("explode", .bool true),
    ("style", .str "deepObject"),
    ("schema", .obj [
      ("type", .str "object"),
      ("properties", .obj [
        ("size", .obj [("type", .str "integer")]),
        ("number", .obj [("type", .str "integer")])])])]

/-- The second element of `STATIC_PARAMETERS` of generate.py (the
`collapse_uuids` query parameter). -/
def collapseUuidsParameter : Json :=
  .obj [
    ("in", .str "query"),
    ("name", .str "collapse_uuids"),
    ("description", .str "For more info, read the mu-search documentation on [Removing duplicate results](https://github.com/mu-semtech/mu-search#removing-duplicate-results)."),
    ("explode", .bool true),
    ("style", .str "form"),
    ("schema", .obj [
      ("type", .str "string"),
      ("enum", .arr [.str "t"])])]

/-- `STATIC_PARAMETERS` of generate.py. -/
def STATIC_PARAMETERS : List Json := [pageParameter, collapseUuidsParameter]

/-- The `filter` query parameter appended to a path item's parameters
(built inline in generate.py's main block). -/
def filterParameter (props : List (String × Json)) : Json :=
  .obj [
    ("in", .str "query"),
    ("name", .str "filter"),
    ("description", .str "Note that more filtering options exist than what it expressable in Openapi.\n    Read the mu-search documentation on [Supported search methods](https://github.com/mu-semtech/mu-search#supported-search-methods) for more info"),
    ("explode", .bool true),
    ("style", .str "deepObject"),
    ("schema", .obj [
      ("type", .str "object"),
      ("properties", .obj props)])]

/-- The `sort` query parameter appended to a path item's parameters
(built inline in generate.py's main block). -/
def sortParameter (props : List (String × Json)) : Json :=
  .obj [
    ("in", .str "query"),
    ("name", .str "sort"),
    ("description", .str "For more info, read the mu-search documentation on [sorting](https://github.com/mu-semtech/mu-search#sorting)."),
    ("explode", .bool true),
    ("style", .str "deepObject"),
    ("schema", .obj [
      ("type", .str "object"),
      ("properties", .obj props)])]

/-- The in-place augmentation of the sort properties: `v["enum"] = ["asc",
"desc"]` for every value `v` of the freshly built sort property dict. -/
def addSortEnum (props : List (String × Json)) : List (String × Json) :=
  props.map (fun kv =>
    (kv.1, kv.2.setKey "enum" (Json.arr [Json.str "asc", Json.str "desc"])))

/-- One path item as assembled in generate.py's main loop: the `get`
operation with its response schema, and the parameter list [filter, sort,
page, collapse_uuids] (built by two appends and an extend on the initially
empty list). -/
def pathItemJson (name : String) (attrProps filterProps sortProps :
    List (String × Json)) : Json :=
  .obj [
    ("get", .obj [
      ("description", .str ("Search the " ++ name ++ " index")),
      ("responses", .obj [
        ("200", .obj [
          ("description", .str "Search results"),
          ("content", .obj [
            ("application/json", .obj [
              ("schema", .obj [
                ("type", .str "object"),
                ("properties", .obj [
                  ("data", .obj [
                    ("type", .str "object"),
                    ("properties", .obj [
                      ("id", .obj [("type", .str "string")]),
                      ("type", .obj [("type", .str "string")]),
                      ("attributes", .obj [
                        ("type", .str "object"),
                        ("properties", .obj attrProps)])])])])])])])])])]),
    ("parameters", .arr
      (filterParameter filterProps :: sortParameter sortProps ::
        STATIC_PARAMETERS))]

/-- One iteration of generate.py's main loop for one entry of the `types`
sequence: reads `type["type"]` (for the path f-string), then
`type["mappings"]["properties"]` (three textual occurrences in the source,
one read each for the attributes, filter and sort property dicts; the reads
are pure so they are performed once here, while the three calls to the
property builder are kept separate because the sort properties are mutated
in place afterwards).  Any failing structural access is a
MalformedConfiguration; iterating a non-dict `properties` value
(`.items()` in Python) likewise fails. -/
def processType (t : Json) : Except CompileError (String × Json) :=
  match t.get? "type" with
  | none => .error (.MalformedConfiguration "type")
  | some nameJ =>
    match t.get? "mappings" with
    | none => .error (.MalformedConfiguration "mappings")
    | some mappings =>
      match mappings.get? "properties" with
      | none => .error (.MalformedConfiguration "properties")
      | some (.obj props) =>
          match search_conf_props_to_openapi_props props with
          | .error e => .error e
          | .ok attrProps =>
            match search_conf_props_to_openapi_props props with
            | .error e => .error e
            | .ok filterProps =>
              match search_conf_props_to_openapi_props props with
              | .error e => .error e
              | .ok sortBase =>
                .ok ("/" ++ pyStr nameJ ++ "/search",
                     pathItemJson (pyStr nameJ) attrProps filterProps
                       (addSortEnum sortBase))
      | some _ => .error (.MalformedConfiguration "properties")

/-- generate.py's main loop over `mu_search_config["types"]`, accumulating
`paths_obj[path] = path_item`; the first raised exception aborts the run. -/
def buildPaths (ts : List Json) (acc : List (String × Json)) :
    Except CompileError (List (String × Json)) :=
  match ts with
  | [] => .ok acc
  | t :: rest =>
      match processType t with
      | .ok pi => buildPaths rest (assocSet acc pi.1 pi.2)
      | .error e => .error e

/-- The fixed `info` metadata of the output document. -/
def infoJson : Json :=
  .obj [("title", .str "Mu-search api description"),
        ("version", .str "Our version")]

/-- The compile operation: generate.py's main block without the external
file I/O.  Reads `mu_search_config["types"]` (a missing key, or a value that
is not a sequence of type entries, is a MalformedConfiguration), builds the
path items, and assembles the final document with the fixed `openapi` and
`info` metadata.  The initially empty `paths` entry is overwritten at the
end by `openapi["paths"] = paths_obj`, leaving the key in its original
position. -/
def compileConfig (cfg : Json) : Except CompileError Json :=
  match cfg.get? "types" with
  | none => .error (.MalformedConfiguration "types")
  | some (.arr ts) =>
      match buildPaths ts [] with
      | .ok paths =>
          .ok (.obj [("openapi", .str "3.0.0"), ("info", infoJson),
                     ("paths", .obj paths)])
      | .error e => .error e
  | some _ => .error (.MalformedConfiguration "types")

/-- True on a successful compile result. -/
def resultIsOk {α : Type} (e : Except CompileError α) : Bool :=
  match e with
  | .ok _ => true
  | .error _ => false

/-- True when a result is an UnsupportedFieldType failure. -/
def isUnsupportedError {α : Type} (e : Except CompileError α) : Bool :=
  match e with
  | .error (.UnsupportedFieldType _) => true
  | _ => false

/-- True when a result is a MalformedConfiguration failure. -/
def isMalformedError {α : Type} (e : Except CompileError α) : Bool :=
  match e with
  | .error (.MalformedConfiguration _) => true
  | _ => false

/-- The entries of the `paths` mapping of a compiled document (empty on a
failed compile). -/
def pathsOf (e : Except CompileError Json) : List (String × Json) :=
  match e with
  | .ok doc =>
      match doc.get? "paths" with
      | some (.obj kvs) => kvs
      | _ => []
  | .error _ => []

/-- Reads a top-level key of a compiled document. -/
def docGet (e : Except CompileError Json) (k : String) : Option Json :=
  match e with
  | .ok doc => doc.get? k
  | .error _ => none

/-- The `parameters` sequence of a path item. -/
def paramsOfItem (item : Json) : List Json :=
  match item.get? "parameters" with
  | some (.arr ps) => ps
  | _ => []

/-- The properties of a parameter's object schema. -/
def schemaPropsOf (p : Json) : List (String × Json) :=
  match dig p ["schema", "properties"] with
  | some (.obj kvs) => kvs
  | _ => []

/-- The first parameter of a path item (the filter parameter). -/
def filterParamOfItem (item : Json) : Json :=
  (paramsOfItem item).headD Json.null

/-- The second parameter of a path item (the sort parameter). -/
def sortParamOfItem (item : Json) : Json :=
  ((paramsOfItem item).drop 1).headD Json.null

/-- The property dict of the filter parameter's schema. -/
def filterPropsOfItem (item : Json) : List (String × Json) :=
  schemaPropsOf (filterParamOfItem item)

/-- The property dict of the sort parameter's schema. -/
def sortPropsOfItem (item : Json) : List (String × Json) :=
  schemaPropsOf (sortParamOfItem item)

/-- The property dict of the response `attributes` schema of a path item. -/
def attrPropsOfItem (item : Json) : List (String × Json) :=
  match dig item ["get", "responses", "200", "content", "application/json",
                  "schema", "properties", "data", "properties", "attributes",
                  "properties"] with
  | some (.obj kvs) => kvs
  | _ => []

/-- The name of a resource type entry, as rendered into its path. -/
def typeName (t : Json) : String :=
  match t.get? "type" with
  | some v => pyStr v
  | none => ""

/-- The declared field names of a resource type entry. -/
def fieldNames (t : Json) : List String :=
  match dig t ["mappings", "properties"] with
  | some (.obj kvs) => kvs.map Prod.fst
  | _ => []

/-- The (path, path item) pair a resource type entry compiles to
(a placeholder on a failing entry). -/
def processedPathItem (t : Json) : String × Json :=
  match processType t with
  | .ok pi => pi
  | .error _ => ("", Json.null)

/-- A path item is fully assembled: it has its `get` operation and its four
query parameters. -/
def itemAssembled (item : Json) : Bool :=
  (item.get? "get").isSome && (paramsOfItem item).length == 4

/-- Pure mirror of the main loop's dict accumulation, used to reason about
a run in which every resource type entry processes successfully. -/
def insertAll (acc : List (String × Json)) (ts : List Json) :
    List (String × Json) :=
  match ts with
  | [] => acc
  | t :: rest =>
      insertAll (assocSet acc (processedPathItem t).1 (processedPathItem t).2)
        rest

/-- The path item of the last entry of `ts` whose path is `p`, if any. -/
def lastWith (p : String) (ts : List Json) : Option Json :=
  match ts with
  | [] => none
  | t :: rest =>
      match lastWith p rest with
      | some item => some item
      | none =>
          if (processedPathItem t).1 = p then some (processedPathItem t).2
          else none

/-- A field spec declares some mapped-table type. -/
def fieldSupported (spec : Json) : Bool :=
  match spec.get? "type" with
  | some (.str s) => (strAssocGet es_type_to_openapi_type s).isSome
  | _ => false

/-- A field spec declares a string type (well or badly chosen). -/
def fieldWellFormed (spec : Json) : Bool :=
  match spec.get? "type" with
  | some (.str _) => true
  | _ => false

/-- A field spec declares a string type outside the mapping table. -/
def fieldIsUnsupported (spec : Json) : Bool :=
  match spec.get? "type" with
  | some (.str s) => (strAssocGet es_type_to_openapi_type s).isNone
  | _ => false

/-- A resource type entry has the full required structure and every field
declares a string type. -/
def entryWellFormed (t : Json) : Bool :=
  (t.get? "type").isSome &&
    (match dig t ["mappings", "properties"] with
     | some (.obj props) => props.all (fun kv => fieldWellFormed kv.2)
     | _ => false)

/-- A resource type entry declares some field with an unsupported type. -/
def entryHasUnsupportedField (t : Json) : Bool :=
  match dig t ["mappings", "properties"] with
  | some (.obj props) => props.any (fun kv => fieldIsUnsupported kv.2)
  | _ => false

/-- The configuration has a `types` sequence whose entries are all
structurally well formed. -/
def wellFormedConfig (cfg : Json) : Bool :=
  match cfg.get? "types" with
  | some (.arr ts) => ts.all entryWellFormed
  | _ => false

/-- The configuration declares some field with an unsupported type. -/
def hasUnsupportedField (cfg : Json) : Bool :=
  match cfg.get? "types" with
  | some (.arr ts) => ts.any entryHasUnsupportedField
  | _ => false

/-- A resource type entry lacks its `mappings.properties` structure. -/
def missingMappingsProps (t : Json) : Bool :=
  match t.get? "mappings" with
  | none => true
  | some m => (m.get? "properties").isNone

/-- The configuration lacks required structure: no `types` sequence, or a
resource type entry missing `mappings.properties`. -/
def configLacksStructure (cfg : Json) : Bool :=
  match cfg.get? "types" with
  | some (.arr ts) => ts.any missingMappingsProps
  | _ => true

/-- The resource type entry of the configuration scenario in section 8 of the
specification. -/
def personTypeEntry : Json :=
  .obj [("type", .str "person"),
        ("mappings", .obj [("properties", .obj [
          ("name", .obj [("type", .str "text")]),
          ("age", .obj [("type", .str "integer")])])])]

/-- The scenario configuration of section 8 of the specification. -/
def personConfig : Json := .obj [("types", .arr [personTypeEntry])]

/-- The openapi property fragments the scenario field mapping compiles to. -/
def personAttrProps : List (String × Json) :=
  [("name", Json.obj [("type", Json.str "string")]),
   ("age", Json.obj [("type", Json.str "integer")])]

/-- The path item the scenario configuration compiles to. -/
def personItem : Json :=
  pathItemJson "person" personAttrProps personAttrProps
    (addSortEnum personAttrProps)

/-- The sort-parameter property fragment of the scenario name field. -/
def personSortNameProp : Json :=
  Json.obj [("type", Json.str "string"),
            ("enum", Json.arr [Json.str "asc", Json.str "desc"])]

/-- A structurally well-formed resource type entry declaring a field with the
unsupported primitive type float. -/
def floatTypeEntry : Json :=
  .obj [("type", .str "person"),
        ("mappings", .obj [("properties", .obj [
          ("weight", .obj [("type", .str "float")])])])]

/-- A configuration whose only entry declares an unsupported field type. -/
def c1WitnessConfig : Json := .obj [("types", .arr [floatTypeEntry])]

/-- A configuration with a structurally deficient first entry (no keys at
all) and an unsupported field type in the second entry. -/
def c1CexConfig : Json := .obj [("types", .arr [.obj [], floatTypeEntry])]

/-- A resource type entry named person whose only field is name. -/
def dupEntryOne : Json :=
  .obj [("type", .str "person"),
        ("mappings", .obj [("properties", .obj [
          ("name", .obj [("type", .str "text")])])])]

/-- A second resource type entry also named person, with a different field
mapping. -/
def dupEntryTwo : Json :=
  .obj [("type", .str "person"),
        ("mappings", .obj [("properties", .obj [
          ("age", .obj [("type", .str "integer")])])])]

/-- A configuration in which two entries of the types sequence share one
type name. -/
def c2CexConfig : Json := .obj [("types", .arr [dupEntryOne, dupEntryTwo])]

/-- A resource type entry lacking the mappings key. -/
def noMappingsEntry : Json := .obj [("type", .str "animal")]

/-- A configuration whose second entry lacks mappings.properties. -/
def c8WitnessConfig : Json :=
  .obj [("types", .arr [personTypeEntry, noMappingsEntry])]

/-- A configuration with an unsupported field type in the first entry and a
second entry lacking mappings.properties. -/
def c8CexConfig : Json :=
  .obj [("types", .arr [floatTypeEntry, noMappingsEntry])]

/-- The number of resource types in the configuration types sequence. -/
def typesCount (cfg : Json) : Nat :=
  match cfg.get? "types" with
  | some (.arr ts) => ts.length
  | _ => 0

/-- The number of entries of the paths mapping of a compiled document. -/
def pathsCount (e : Except CompileError Json) : Nat := (pathsOf e).length


theorem resultIsOk_iff {α : Type} (e : Except CompileError α) :
    resultIsOk e = true ↔ ∃ a, e = .ok a := by
  cases e <;> simp [resultIsOk]

theorem isUnsupportedError_iff {α : Type} (e : Except CompileError α) :
    isUnsupportedError e = true ↔ ∃ s, e = .error (.UnsupportedFieldType s) := by
  cases e with
  | ok a => simp [isUnsupportedError]
  | error err => cases err <;> simp [isUnsupportedError]

theorem isMalformedError_iff {α : Type} (e : Except CompileError α) :
    isMalformedError e = true ↔ ∃ k, e = .error (.MalformedConfiguration k) := by
  cases e with
  | ok a => simp [isMalformedError]
  | error err => cases err <;> simp [isMalformedError]

theorem assocGet_assocSet (kvs : List (String × Json)) (k p : String)
    (v : Json) :
    assocGet (assocSet kvs k v) p =
      if k = p then some v else assocGet kvs p := by
  induction kvs with
  | nil => simp [assocSet, assocGet]
  | cons hd tl ih =>
      obtain ⟨key, w⟩ := hd
      by_cases hkey : key = k
      · subst hkey
        by_cases hp : key = p <;> simp [assocSet, assocGet, hp]
      · by_cases hp : key = p
        · subst hp
          have : ¬ k = key := fun h => hkey h.symm
          simp [assocSet, hkey, assocGet, this]
        · simp [assocSet, hkey, assocGet, hp, ih]

theorem mem_assocSet {kvs : List (String × Json)} {k : String} {v : Json}
    {p : String × Json} (h : p ∈ assocSet kvs k v) :
    p ∈ kvs ∨ p = (k, v) := by
  induction kvs with
  | nil => simp [assocSet] at h; simp [h]
  | cons hd tl ih =>
      obtain ⟨key, w⟩ := hd
      by_cases hkey : key = k
      · simp [assocSet, hkey] at h
        rcases h with h | h
        · right; simp [h]
        · left; simp [h]
      · simp [assocSet, hkey] at h
        rcases h with h | h
        · left; simp [h]
        · rcases ih h with h' | h'
          · left; simp [h']
          · right; exact h'

theorem mem_keys_assocSet {kvs : List (String × Json)} {k : String} {v : Json}
    (p : String) :
    p ∈ (assocSet kvs k v).map Prod.fst ↔
      p ∈ kvs.map Prod.fst ∨ p = k := by
  induction kvs with
  | nil => simp [assocSet]
  | cons hd tl ih =>
      obtain ⟨key, w⟩ := hd
      by_cases hkey : key = k
      · subst hkey
        have hset : assocSet ((key, w) :: tl) key v = (key, v) :: tl := by
          simp [assocSet]
        rw [hset]
        simp only [List.map_cons, List.mem_cons]
        tauto
      · simp only [assocSet, if_neg hkey, List.map_cons, List.mem_cons, ih]
        tauto

theorem keys_assocSet_of_mem {kvs : List (String × Json)} {k : String}
    {v : Json} (h : k ∈ kvs.map Prod.fst) :
    (assocSet kvs k v).map Prod.fst = kvs.map Prod.fst := by
  induction kvs with
  | nil => simp at h
  | cons hd tl ih =>
      obtain ⟨key, w⟩ := hd
      by_cases hkey : key = k
      · subst hkey
        have hset : assocSet ((key, w) :: tl) key v = (key, v) :: tl := by
          simp [assocSet]
        rw [hset]
        simp only [List.map_cons]
      · simp only [List.map_cons, List.mem_cons] at h
        rcases h with h | h
        · exact absurd h.symm hkey
        · simp only [assocSet, if_neg hkey, List.map_cons, ih h]

theorem assocSet_of_not_mem {kvs : List (String × Json)} {k : String}
    {v : Json} (h : k ∉ kvs.map Prod.fst) :
    assocSet kvs k v = kvs ++ [(k, v)] := by
  induction kvs with
  | nil => simp [assocSet]
  | cons hd tl ih =>
      obtain ⟨key, w⟩ := hd
      simp only [List.map_cons, List.mem_cons, not_or] at h
      have hkey : ¬ key = k := fun hk => h.1 hk.symm
      simp only [assocSet, if_neg hkey, ih h.2, List.cons_append]

theorem keys_nodup_assocSet {kvs : List (String × Json)} {k : String}
    {v : Json} (h : (kvs.map Prod.fst).Nodup) :
    ((assocSet kvs k v).map Prod.fst).Nodup := by
  by_cases hk : k ∈ kvs.map Prod.fst
  · rw [keys_assocSet_of_mem hk]; exact h
  · rw [assocSet_of_not_mem hk]
    rw [List.map_append, List.nodup_append]
    refine ⟨h, ?_, ?_⟩
    · simp
    · intro a ha hb
      simp only [List.map_cons, List.map_nil, List.mem_singleton] at hb
      exact hk (hb ▸ ha)

theorem props_keys {props out : List (String × Json)}
    (h : search_conf_props_to_openapi_props props = .ok out) :
    out.map Prod.fst = props.map Prod.fst := by
  induction props generalizing out with
  | nil =>
      simp only [search_conf_props_to_openapi_props, Except.ok.injEq] at h
      rw [← h]
  | cons hd tl ih =>
      obtain ⟨key, fs⟩ := hd
      simp only [search_conf_props_to_openapi_props] at h
      split at h
      case _ target heqm =>
        split at h
        case _ restProps heqr =>
          injection h with h
          rw [← h]
          simp only [List.map_cons]
          rw [ih heqr]
        case _ => exact absurd h (by simp)
      case _ => exact absurd h (by simp)

theorem props_shape {props out : List (String × Json)}
    (h : search_conf_props_to_openapi_props props = .ok out) :
    ∀ kv ∈ out, ∃ s, kv.2 = Json.obj [("type", Json.str s)] := by
  induction props generalizing out with
  | nil =>
      simp only [search_conf_props_to_openapi_props, Except.ok.injEq] at h
      rw [← h]
      intro kv hkv
      simp at hkv
  | cons hd tl ih =>
      obtain ⟨key, fs⟩ := hd
      simp only [search_conf_props_to_openapi_props] at h
      split at h
      case _ target heqm =>
        split at h
        case _ restProps heqr =>
          injection h with h
          rw [← h]
          intro kv hkv
          rcases List.mem_cons.mp hkv with hkv | hkv
          · exact ⟨target, by rw [hkv]⟩
          · exact ih heqr kv hkv
        case _ => exact absurd h (by simp)
      case _ => exact absurd h (by simp)

theorem props_ok_of_supported {props : List (String × Json)}
    (h : props.all (fun kv => fieldSupported kv.2) = true) :
    ∃ out, search_conf_props_to_openapi_props props = .ok out := by
  induction props with
  | nil => exact ⟨[], rfl⟩
  | cons hd tl ih =>
      obtain ⟨key, fs⟩ := hd
      simp only [List.all_cons, Bool.and_eq_true] at h
      obtain ⟨h1, h2⟩ := h
      obtain ⟨out, hout⟩ := ih h2
      unfold fieldSupported at h1
      split at h1
      case _ s heq =>
        obtain ⟨target, hlook⟩ := Option.isSome_iff_exists.mp h1
        have hm : mapFieldType fs = .ok target := by
          simp only [mapFieldType, heq, hlook]
        exact ⟨(key, Json.obj [("type", Json.str target)]) :: out,
          by simp only [search_conf_props_to_openapi_props, hm, hout]⟩
      case _ => exact absurd h1 (by simp)

theorem props_all_supported_of_ok {props out : List (String × Json)}
    (h : search_conf_props_to_openapi_props props = .ok out) :
    props.all (fun kv => fieldSupported kv.2) = true := by
  induction props generalizing out with
  | nil => simp
  | cons hd tl ih =>
      obtain ⟨key, fs⟩ := hd
      simp only [search_conf_props_to_openapi_props] at h
      split at h
      case _ target heqm =>
        split at h
        case _ restProps heqr =>
          simp only [List.all_cons, Bool.and_eq_true]
          refine ⟨?_, ih heqr⟩
          unfold mapFieldType at heqm
          split at heqm
          case _ => exact absurd heqm (by simp)
          case _ s heq =>
            split at heqm
            case _ target' heq2 =>
              simp only [fieldSupported, heq, heq2, Option.isSome_some]
            case _ heq2 => exact absurd heqm (by simp)
          case _ v heq => exact absurd heqm (by simp)
        case _ => exact absurd h (by simp)
      case _ => exact absurd h (by simp)

theorem fieldSupported_of_wf_not_unsupported {spec : Json}
    (hw : fieldWellFormed spec = true) (hu : fieldIsUnsupported spec = false) :
    fieldSupported spec = true := by
  unfold fieldWellFormed at hw
  split at hw
  case _ s heq =>
    simp only [fieldIsUnsupported, heq] at hu
    simp only [fieldSupported, heq]
    cases hl : strAssocGet es_type_to_openapi_type s
    · rw [hl] at hu; simp at hu
    · simp
  case _ => exact absurd hw (by simp)

theorem props_unsupported {props : List (String × Json)}
    (hw : props.all (fun kv => fieldWellFormed kv.2) = true)
    (hu : props.any (fun kv => fieldIsUnsupported kv.2) = true) :
    isUnsupportedError (search_conf_props_to_openapi_props props) = true := by
  induction props with
  | nil => simp at hu
  | cons hd tl ih =>
      obtain ⟨key, fs⟩ := hd
      simp only [List.all_cons, Bool.and_eq_true] at hw
      simp only [List.any_cons, Bool.or_eq_true] at hu
      by_cases hbad : fieldIsUnsupported fs = true
      · unfold fieldIsUnsupported at hbad
        split at hbad
        case _ s heq =>
          rw [Option.isNone_iff_eq_none] at hbad
          have hm : mapFieldType fs = .error (.UnsupportedFieldType s) := by
            simp only [mapFieldType, heq, hbad]
          simp only [search_conf_props_to_openapi_props, hm, isUnsupportedError]
        case _ => exact absurd hbad (by simp)
      · have hbad' : fieldIsUnsupported fs = false := by
          cases hfb : fieldIsUnsupported fs
          · rfl
          · exact absurd hfb hbad
        rcases hu with hu | hu
        · exact absurd hu hbad
        · have hsup : fieldSupported fs = true :=
            fieldSupported_of_wf_not_unsupported hw.1 hbad'
          unfold fieldSupported at hsup
          split at hsup
          case _ s heq =>
            obtain ⟨target, hlook⟩ := Option.isSome_iff_exists.mp hsup
            have hm : mapFieldType fs = .ok target := by
              simp only [mapFieldType, heq, hlook]
            obtain ⟨s', hs'⟩ := (isUnsupportedError_iff _).mp (ih hw.2 hu)
            simp only [search_conf_props_to_openapi_props, hm, hs',
              isUnsupportedError]
          case _ => exact absurd hsup (by simp)

theorem dig_two {t : Json} {k1 k2 : String} {v : Json}
    (h : dig t [k1, k2] = some v) :
    ∃ m, t.get? k1 = some m ∧ m.get? k2 = some v := by
  unfold dig at h
  split at h
  case _ m heq1 =>
    refine ⟨m, heq1, ?_⟩
    unfold dig at h
    split at h
    case _ w heq2 =>
      injection h with h
      rw [← h]
      exact heq2
    case _ => exact absurd h (by simp)
  case _ => exact absurd h (by simp)

theorem dig_two_intro {t m v : Json} {k1 k2 : String}
    (h1 : t.get? k1 = some m) (h2 : m.get? k2 = some v) :
    dig t [k1, k2] = some v := by
  simp [dig, h1, h2]

theorem processType_ok_shape {t : Json} {pi : String × Json}
    (h : processType t = .ok pi) :
    ∃ nameJ mappings props out,
      t.get? "type" = some nameJ ∧ t.get? "mappings" = some mappings ∧
      mappings.get? "properties" = some (.obj props) ∧
      search_conf_props_to_openapi_props props = .ok out ∧
      pi = ("/" ++ pyStr nameJ ++ "/search",
            pathItemJson (pyStr nameJ) out out (addSortEnum out)) := by
  unfold processType at h
  split at h
  case _ => exact absurd h (by simp)
  case _ nameJ heq1 =>
    split at h
    case _ => exact absurd h (by simp)
    case _ mappings heq2 =>
      split at h
      case _ => exact absurd h (by simp)
      case _ props heq3 =>
        split at h
        case _ e heq4 => exact absurd h (by simp)
        case _ attrProps heq4 =>
          split at h
          case _ e heq5 => exact absurd h (by simp)
          case _ filterProps heq5 =>
            split at h
            case _ e heq6 => exact absurd h (by simp)
            case _ sortBase heq6 =>
              injection h with h
              injection heq5 with h5
              injection heq6 with h6
              subst h6
              subst h5
              exact ⟨nameJ, mappings, props, attrProps, heq1, heq2, heq3,
                heq4, h.symm⟩
      case _ heq3 => exact absurd h (by simp)

theorem processType_ok_of_entry {t : Json} (hwf : entryWellFormed t = true)
    (hnu : entryHasUnsupportedField t = false) :
    resultIsOk (processType t) = true := by
  unfold entryWellFormed at hwf
  rw [Bool.and_eq_true] at hwf
  obtain ⟨htype, hrest⟩ := hwf
  obtain ⟨nameJ, hname⟩ := Option.isSome_iff_exists.mp htype
  split at hrest
  case _ props hdig =>
    obtain ⟨m, hm1, hm2⟩ := dig_two hdig
    simp only [entryHasUnsupportedField, hdig] at hnu
    have hall : props.all (fun kv => fieldSupported kv.2) = true := by
      rw [List.all_eq_true]
      intro kv hkv
      have hw : fieldWellFormed kv.2 = true :=
        List.all_eq_true.mp hrest kv hkv
      have hu : fieldIsUnsupported kv.2 = false := by
        cases hfb : fieldIsUnsupported kv.2
        · rfl
        · exfalso
          have : props.any (fun kv => fieldIsUnsupported kv.2) = true :=
            List.any_eq_true.mpr ⟨kv, hkv, hfb⟩
          rw [this] at hnu
          exact Bool.noConfusion hnu
      exact fieldSupported_of_wf_not_unsupported hw hu
    obtain ⟨out, hout⟩ := props_ok_of_supported hall
    simp only [processType, hname, hm1, hm2, hout, resultIsOk]
  case _ hdig => exact Bool.noConfusion hrest

theorem processType_unsupported {t : Json} (hwf : entryWellFormed t = true)
    (hu : entryHasUnsupportedField t = true) :
    isUnsupportedError (processType t) = true := by
  unfold entryWellFormed at hwf
  rw [Bool.and_eq_true] at hwf
  obtain ⟨htype, hrest⟩ := hwf
  obtain ⟨nameJ, hname⟩ := Option.isSome_iff_exists.mp htype
  split at hrest
  case _ props hdig =>
    obtain ⟨m, hm1, hm2⟩ := dig_two hdig
    simp only [entryHasUnsupportedField, hdig] at hu
    obtain ⟨s, hs⟩ :=
      (isUnsupportedError_iff _).mp (props_unsupported hrest hu)
    simp only [processType, hname, hm1, hm2, hs, isUnsupportedError]
  case _ hdig => exact Bool.noConfusion hrest

theorem processType_malformed {t : Json} (h : missingMappingsProps t = true) :
    isMalformedError (processType t) = true := by
  unfold missingMappingsProps at h
  cases hname : t.get? "type" with
  | none => simp only [processType, hname, isMalformedError]
  | some nameJ =>
      split at h
      case _ heqm =>
        simp only [processType, hname, heqm, isMalformedError]
      case _ m heqm =>
        rw [Option.isNone_iff_eq_none] at h
        simp only [processType, hname, heqm, h, isMalformedError]

theorem processType_ok_no_unsupported {t : Json}
    (h : resultIsOk (processType t) = true) :
    entryHasUnsupportedField t = false := by
  obtain ⟨pi, hpi⟩ := (resultIsOk_iff _).mp h
  obtain ⟨nameJ, m, props, out, h1, h2, h3, h4, h5⟩ := processType_ok_shape hpi
  have hall := props_all_supported_of_ok h4
  have hdig : dig t ["mappings", "properties"] = some (.obj props) :=
    dig_two_intro h2 h3
  simp only [entryHasUnsupportedField, hdig]
  cases hany : props.any (fun kv => fieldIsUnsupported kv.2)
  · rfl
  · exfalso
    obtain ⟨kv, hkv, hbad⟩ := List.any_eq_true.mp hany
    have hsup : fieldSupported kv.2 = true := List.all_eq_true.mp hall kv hkv
    unfold fieldSupported at hsup
    split at hsup
    case _ s heq =>
      simp only [fieldIsUnsupported, heq] at hbad
      rw [Option.isNone_iff_eq_none] at hbad
      rw [hbad] at hsup
      exact Bool.noConfusion hsup
    case _ => exact Bool.noConfusion hsup

theorem buildPaths_ok_each {ts : List Json} {acc kvs : List (String × Json)}
    (h : buildPaths ts acc = .ok kvs) :
    ∀ t ∈ ts, resultIsOk (processType t) = true := by
  induction ts generalizing acc with
  | nil => intro t ht; simp at ht
  | cons hd tl ih =>
      intro t ht
      unfold buildPaths at h
      split at h
      case _ pi heq =>
        rcases List.mem_cons.mp ht with ht | ht
        · rw [ht, heq]; rfl
        · exact ih h t ht
      case _ e heq => exact absurd h (by simp)

theorem buildPaths_ok_mem {ts : List Json} {acc kvs : List (String × Json)}
    (h : buildPaths ts acc = .ok kvs) :
    ∀ pi ∈ kvs, pi ∈ acc ∨ ∃ t ∈ ts, processType t = .ok pi := by
  induction ts generalizing acc with
  | nil =>
      unfold buildPaths at h
      injection h with h
      intro pi hpi
      rw [← h] at hpi
      exact Or.inl hpi
  | cons hd tl ih =>
      unfold buildPaths at h
      split at h
      case _ pi0 heq =>
        intro pi hpi
        rcases ih h pi hpi with hmem | ⟨t, ht, hok⟩
        · rcases mem_assocSet hmem with hmem | hEq
          · exact Or.inl hmem
          · exact Or.inr ⟨hd, List.mem_cons_self hd tl, by rw [heq, hEq]⟩
        · exact Or.inr ⟨t, List.mem_cons_of_mem hd ht, hok⟩
      case _ => exact absurd h (by simp)

theorem buildPaths_insertAll {ts : List Json} {acc : List (String × Json)}
    (h : ∀ t ∈ ts, resultIsOk (processType t) = true) :
    buildPaths ts acc = .ok (insertAll acc ts) := by
  induction ts generalizing acc with
  | nil => rfl
  | cons hd tl ih =>
      obtain ⟨pi, hpi⟩ :=
        (resultIsOk_iff _).mp (h hd (List.mem_cons_self hd tl))
      have hppi : processedPathItem hd = pi := by
        unfold processedPathItem
        rw [hpi]
      simp only [buildPaths, insertAll, hpi, hppi]
      exact ih (fun t ht => h t (List.mem_cons_of_mem hd ht))

theorem buildPaths_error_at {pre : List Json} {bad : Json} {rest : List Json}
    {acc : List (String × Json)} {e : CompileError}
    (hpre : ∀ t ∈ pre, resultIsOk (processType t) = true)
    (hbad : processType bad = .error e) :
    buildPaths (pre ++ bad :: rest) acc = .error e := by
  induction pre generalizing acc with
  | nil => simp only [List.nil_append, buildPaths, hbad]
  | cons hd tl ih =>
      obtain ⟨pi, hpi⟩ :=
        (resultIsOk_iff _).mp (hpre hd (List.mem_cons_self hd tl))
      simp only [List.cons_append, buildPaths, hpi]
      exact ih (fun t ht => hpre t (List.mem_cons_of_mem hd ht))

theorem buildPaths_unsupported {ts : List Json} {acc : List (String × Json)}
    (hwf : ts.all entryWellFormed = true)
    (hu : ts.any entryHasUnsupportedField = true) :
    isUnsupportedError (buildPaths ts acc) = true := by
  induction ts generalizing acc with
  | nil => simp at hu
  | cons hd tl ih =>
      simp only [List.all_cons, Bool.and_eq_true] at hwf
      simp only [List.any_cons, Bool.or_eq_true] at hu
      cases hhd : entryHasUnsupportedField hd
      · rcases hu with hu | hu
        · rw [hhd] at hu
          exact Bool.noConfusion hu
        · obtain ⟨pi, hpi⟩ :=
            (resultIsOk_iff _).mp (processType_ok_of_entry hwf.1 hhd)
          simp only [buildPaths, hpi]
          exact ih hwf.2 hu
      · obtain ⟨s, hs⟩ :=
          (isUnsupportedError_iff _).mp (processType_unsupported hwf.1 hhd)
        simp only [buildPaths, hs, isUnsupportedError]

theorem insertAll_mem_keys {ts : List Json} {acc : List (String × Json)}
    (p : String) :
    p ∈ (insertAll acc ts).map Prod.fst ↔
      p ∈ acc.map Prod.fst ∨
        p ∈ ts.map (fun t => (processedPathItem t).1) := by
  induction ts generalizing acc with
  | nil => simp [insertAll]
  | cons hd tl ih =>
      simp only [insertAll]
      rw [ih, mem_keys_assocSet]
      simp only [List.map_cons, List.mem_cons]
      tauto

theorem insertAll_keys_nodup {ts : List Json} {acc : List (String × Json)}
    (h : (acc.map Prod.fst).Nodup) :
    ((insertAll acc ts).map Prod.fst).Nodup := by
  induction ts generalizing acc with
  | nil => exact h
  | cons hd tl ih => exact ih (keys_nodup_assocSet h)

theorem insertAll_assocGet {ts : List Json} {acc : List (String × Json)}
    (p : String) :
    assocGet (insertAll acc ts) p =
      match lastWith p ts with
      | some item => some item
      | none => assocGet acc p := by
  induction ts generalizing acc with
  | nil => rfl
  | cons hd tl ih =>
      simp only [insertAll]
      rw [ih]
      cases hlw : lastWith p tl with
      | some item => simp only [lastWith, hlw]
      | none =>
          simp only [lastWith, hlw]
          rw [assocGet_assocSet]
          by_cases hc : (processedPathItem hd).1 = p
          · simp [hc]
          · simp [hc]

theorem insertAll_disjoint {ts : List Json} {acc : List (String × Json)}
    (hdisj : ∀ t ∈ ts, (processedPathItem t).1 ∉ acc.map Prod.fst)
    (hnd : (ts.map (fun t => (processedPathItem t).1)).Nodup) :
    insertAll acc ts = acc ++ ts.map processedPathItem := by
  induction ts generalizing acc with
  | nil => simp [insertAll]
  | cons hd tl ih =>
      have hset :=
        @assocSet_of_not_mem acc (processedPathItem hd).1
          (processedPathItem hd).2 (hdisj hd (List.mem_cons_self hd tl))
      simp only [List.map_cons, List.nodup_cons] at hnd
      have h1 : ∀ t ∈ tl, (processedPathItem t).1 ∉
          (acc ++
            [((processedPathItem hd).1, (processedPathItem hd).2)]).map
            Prod.fst := by
        intro t ht
        simp only [List.map_append, List.mem_append, List.map_cons,
          List.map_nil, List.mem_singleton]
        rintro (hmem | hmem)
        · exact hdisj t (List.mem_cons_of_mem hd ht) hmem
        · exact hnd.1 (hmem ▸ List.mem_map_of_mem
            (fun t => (processedPathItem t).1) ht)
      simp only [insertAll]
      rw [hset, ih h1 hnd.2]
      simp

theorem compileConfig_eq {cfg : Json} {ts : List Json}
    (hts : cfg.get? "types" = some (.arr ts)) :
    compileConfig cfg =
      match buildPaths ts [] with
      | .ok paths =>
          .ok (.obj [("openapi", .str "3.0.0"), ("info", infoJson),
                     ("paths", .obj paths)])
      | .error e => .error e := by
  unfold compileConfig
  rw [hts]

theorem compile_ok_parts {cfg doc : Json} (h : compileConfig cfg = .ok doc) :
    ∃ ts kvs, cfg.get? "types" = some (.arr ts) ∧
      buildPaths ts [] = .ok kvs ∧
      doc = .obj [("openapi", .str "3.0.0"), ("info", infoJson),
                  ("paths", .obj kvs)] := by
  unfold compileConfig at h
  split at h
  case _ => exact absurd h (by simp)
  case _ ts heq =>
    split at h
    case _ kvs heq2 =>
      injection h with h
      exact ⟨ts, kvs, heq, heq2, h.symm⟩
    case _ => exact absurd h (by simp)
  case _ heq => exact absurd h (by simp)

theorem pathsOf_eq {cfg : Json} {ts : List Json} {kvs : List (String × Json)}
    (hts : cfg.get? "types" = some (.arr ts))
    (hb : buildPaths ts [] = .ok kvs) :
    pathsOf (compileConfig cfg) = kvs := by
  rw [compileConfig_eq hts, hb]
  rfl

theorem buildPaths_ok_of_compile {cfg : Json} {ts : List Json}
    (hts : cfg.get? "types" = some (.arr ts))
    (hok : resultIsOk (compileConfig cfg) = true) :
    ∃ kvs, buildPaths ts [] = .ok kvs := by
  rw [compileConfig_eq hts] at hok
  cases hb : buildPaths ts [] with
  | ok kvs => exact ⟨kvs, rfl⟩
  | error e =>
      rw [hb] at hok
      simp [resultIsOk] at hok

theorem paramsOfItem_pathItem (n : String) (a f s : List (String × Json)) :
    paramsOfItem (pathItemJson n a f s) =
      [filterParameter f, sortParameter s, pageParameter,
       collapseUuidsParameter] := rfl

theorem filterProps_pathItem (n : String) (a f s : List (String × Json)) :
    filterPropsOfItem (pathItemJson n a f s) = f := rfl

theorem sortProps_pathItem (n : String) (a f s : List (String × Json)) :
    sortPropsOfItem (pathItemJson n a f s) = s := rfl

theorem attrProps_pathItem (n : String) (a f s : List (String × Json)) :
    attrPropsOfItem (pathItemJson n a f s) = a := rfl

theorem addSortEnum_keys (props : List (String × Json)) :
    (addSortEnum props).map Prod.fst = props.map Prod.fst := by
  simp [addSortEnum]

theorem addSortEnum_enum {props : List (String × Json)}
    (h : ∀ kv ∈ props, ∃ s, kv.2 = Json.obj [("type", Json.str s)]) :
    ∀ kv ∈ addSortEnum props,
      kv.2.get? "enum" = some (.arr [.str "asc", .str "desc"]) := by
  intro kv hkv
  obtain ⟨kv0, hkv0, hmap⟩ := List.mem_map.mp hkv
  obtain ⟨s, hs⟩ := h kv0 hkv0
  rw [← hmap]
  show (kv0.2.setKey "enum" (Json.arr [Json.str "asc", Json.str "desc"])).get?
    "enum" = some (.arr [.str "asc", .str "desc"])
  rw [hs]
  rfl

theorem pathString_inj {a b : String}
    (h : "/" ++ a ++ "/search" = "/" ++ b ++ "/search") : a = b := by
  have hd := congrArg String.data h
  simp only [String.data_append, List.append_assoc] at hd
  have h1 := List.append_cancel_left hd
  have h2 := List.append_cancel_right h1
  cases a with
  | mk da =>
      cases b with
      | mk db =>
          simp only at h2
          rw [h2]

theorem ppi_path {t : Json} (h : resultIsOk (processType t) = true) :
    (processedPathItem t).1 = "/" ++ typeName t ++ "/search" := by
  obtain ⟨pi, hpi⟩ := (resultIsOk_iff _).mp h
  obtain ⟨nameJ, m, props, out, h1, h2, h3, h4, h5⟩ := processType_ok_shape hpi
  simp only [processedPathItem, hpi, h5, typeName, h1]

theorem lastWith_mem {p : String} {ts : List Json} {item : Json}
    (h : lastWith p ts = some item) :
    ∃ t ∈ ts, (processedPathItem t).1 = p ∧ (processedPathItem t).2 = item := by
  induction ts with
  | nil => exact absurd h (by simp [lastWith])
  | cons hd tl ih =>
      unfold lastWith at h
      split at h
      case _ item0 heq =>
        injection h with h
        rw [h] at heq
        obtain ⟨t, ht, h1, h2⟩ := ih heq
        exact ⟨t, List.mem_cons_of_mem hd ht, h1, h2⟩
      case _ heq =>
        split at h
        case _ hc =>
          injection h with h
          exact ⟨hd, List.mem_cons_self hd tl, hc, h⟩
        case _ => exact absurd h (by simp)

theorem lastWith_isSome_of_mem {ts : List Json} {t : Json} (ht : t ∈ ts) :
    ∃ item, lastWith ((processedPathItem t).1) ts = some item := by
  induction ts with
  | nil => simp at ht
  | cons hd tl ih =>
      rcases List.mem_cons.mp ht with ht | ht
      · rw [ht]
        cases hlw : lastWith ((processedPathItem hd).1) tl with
        | some item => exact ⟨item, by simp only [lastWith, hlw]⟩
        | none =>
            refine ⟨(processedPathItem hd).2, ?_⟩
            simp [lastWith, hlw]
      · obtain ⟨item, hitem⟩ := ih ht
        exact ⟨item, by simp only [lastWith, hitem]⟩

/-- Claim C1, counterexample to the statement as frozen: the configuration
`c1CexConfig` contains a field whose declared type float is outside the
mapping table, so the claim predicts an UnsupportedFieldType failure, but the
compile operation fails with MalformedConfiguration instead, because the
first entry of the types sequence lacks its type key and is processed
first. -/
theorem c1_counterexample :
    hasUnsupportedField c1CexConfig = true ∧
    compileConfig c1CexConfig = .error (.MalformedConfiguration "type") ∧
    isUnsupportedError (compileConfig c1CexConfig) = false :=
  ⟨rfl, rfl, rfl⟩

/-- Claim C1 (amended): the Type Mapper sends text, keyword and date to
string and integer to integer; for every structurally well-formed input
configuration containing a field with any other declared type, the compile
operation fails with an UnsupportedFieldType error; and in general (even
without well-formedness) a configuration containing such a field never
yields an output document. -/
theorem c1_amended_theorem :
    (strAssocGet es_type_to_openapi_type "text" = some "string" ∧
     strAssocGet es_type_to_openapi_type "keyword" = some "string" ∧
     strAssocGet es_type_to_openapi_type "date" = some "string" ∧
     strAssocGet es_type_to_openapi_type "integer" = some "integer") ∧
    (∀ cfg : Json, wellFormedConfig cfg = true →
      hasUnsupportedField cfg = true →
      isUnsupportedError (compileConfig cfg) = true) ∧
    (∀ cfg : Json, hasUnsupportedField cfg = true →
      resultIsOk (compileConfig cfg) = false) := by
  refine ⟨⟨rfl, rfl, rfl, rfl⟩, ?_, ?_⟩
  · intro cfg hwf hu
    unfold wellFormedConfig at hwf
    split at hwf
    case _ ts hts =>
      simp only [hasUnsupportedField, hts] at hu
      obtain ⟨s, hs⟩ :=
        (isUnsupportedError_iff _).mp (buildPaths_unsupported hwf hu)
      rw [compileConfig_eq hts, hs]
      rfl
    case _ => exact Bool.noConfusion hwf
  · intro cfg hu
    cases hok : resultIsOk (compileConfig cfg)
    · rfl
    · exfalso
      obtain ⟨doc, hdoc⟩ := (resultIsOk_iff _).mp hok
      obtain ⟨ts, kvs, hts, hb, hdoceq⟩ := compile_ok_parts hdoc
      simp only [hasUnsupportedField, hts] at hu
      obtain ⟨t, ht, hbad⟩ := List.any_eq_true.mp hu
      have hok_t := buildPaths_ok_each hb t ht
      have hnone := processType_ok_no_unsupported hok_t
      rw [hnone] at hbad
      exact Bool.noConfusion hbad

/-- Witness for C1 (amended), at the single-entry configuration declaring a
float field: the compile operation fails with UnsupportedFieldType and
produces no document. -/
theorem c1_amended_witness :
    wellFormedConfig c1WitnessConfig = true ∧
    hasUnsupportedField c1WitnessConfig = true ∧
    isUnsupportedError (compileConfig c1WitnessConfig) = true ∧
    resultIsOk (compileConfig c1WitnessConfig) = false :=
  ⟨rfl, rfl,
   c1_amended_theorem.2.1 c1WitnessConfig rfl rfl,
   c1_amended_theorem.2.2 c1WitnessConfig rfl⟩

/-- Claim C2, counterexample to the statement as frozen: on a configuration
whose two resource type entries share the name person, the compile operation
succeeds but the output paths mapping has one entry while the input types
sequence has two, so the number of path entries does not equal the number of
resource types. -/
theorem c2_counterexample :
    resultIsOk (compileConfig c2CexConfig) = true ∧
    typesCount c2CexConfig = 2 ∧
    pathsCount (compileConfig c2CexConfig) = 1 :=
  ⟨rfl, rfl, rfl⟩

/-- Claim C2 (amended): for every input configuration on which compile
succeeds and whose resource type names are pairwise distinct, the key list
of the output paths mapping is exactly the list of strings /name/search over
the input types in order (hence one entry per resource type, each name
appearing exactly once), and no two entries share a path string. -/
theorem c2_amended_theorem (cfg : Json) (ts : List Json)
    (hts : cfg.get? "types" = some (.arr ts))
    (hnd : (ts.map typeName).Nodup)
    (hok : resultIsOk (compileConfig cfg) = true) :
    (pathsOf (compileConfig cfg)).map Prod.fst =
      ts.map (fun t => "/" ++ typeName t ++ "/search") ∧
    ((pathsOf (compileConfig cfg)).map Prod.fst).Nodup := by
  obtain ⟨kvs, hb⟩ := buildPaths_ok_of_compile hts hok
  have heach := buildPaths_ok_each hb
  have hpaths : ∀ t ∈ ts,
      (processedPathItem t).1 = "/" ++ typeName t ++ "/search" :=
    fun t ht => ppi_path (heach t ht)
  have hmapeq : ts.map (fun t => (processedPathItem t).1) =
      (ts.map typeName).map (fun n => "/" ++ n ++ "/search") := by
    rw [List.map_map]
    exact List.map_congr_left hpaths
  have hkeynd : (ts.map (fun t => (processedPathItem t).1)).Nodup := by
    rw [hmapeq]
    exact List.Nodup.map (fun a b h => pathString_inj h) hnd
  have hins := @buildPaths_insertAll ts [] heach
  rw [hb] at hins
  injection hins with hins
  have hkvs : kvs = ts.map processedPathItem := by
    rw [hins, insertAll_disjoint (by intro t ht; simp) hkeynd]
    simp
  rw [pathsOf_eq hts hb, hkvs]
  constructor
  · rw [List.map_map]
    exact List.map_congr_left hpaths
  · rw [List.map_map]
    exact hkeynd

/-- Witness for C2 (amended) at the section 8 scenario configuration: one
resource type named person yields exactly the key /person/search. -/
theorem c2_amended_witness :
    personConfig.get? "types" = some (.arr [personTypeEntry]) ∧
    ([personTypeEntry].map typeName).Nodup ∧
    resultIsOk (compileConfig personConfig) = true ∧
    (pathsOf (compileConfig personConfig)).map Prod.fst =
      [personTypeEntry].map (fun t => "/" ++ typeName t ++ "/search") :=
  ⟨rfl, List.nodup_singleton _, rfl,
   (c2_amended_theorem personConfig [personTypeEntry] rfl
     (List.nodup_singleton _) rfl).1⟩

/-- Claim C3: in every document produced by a successful compile, every
property of every sort parameter schema carries enum exactly
["asc", "desc"], for every resource type and every field, regardless of the
field's own primitive type. -/
theorem c3_theorem (cfg : Json) :
    ∀ pi ∈ pathsOf (compileConfig cfg), ∀ kv ∈ sortPropsOfItem pi.2,
      kv.2.get? "enum" = some (.arr [.str "asc", .str "desc"]) := by
  intro pi hpi kv hkv
  cases hc : compileConfig cfg with
  | error e =>
      rw [hc] at hpi
      simp [pathsOf] at hpi
  | ok doc =>
      obtain ⟨ts, kvs, hts, hb, hdoc⟩ := compile_ok_parts hc
      rw [hc] at hpi
      have hpaths : pathsOf (Except.ok doc) = kvs := by
        rw [hdoc]
        rfl
      rw [hpaths] at hpi
      rcases buildPaths_ok_mem hb pi hpi with hmem | ⟨t, ht, hok⟩
      · simp at hmem
      · obtain ⟨nameJ, m, props, out, h1, h2, h3, h4, h5⟩ :=
          processType_ok_shape hok
        have hitem : pi.2 = pathItemJson (pyStr nameJ) out out
            (addSortEnum out) := by
          rw [h5]
        rw [hitem, sortProps_pathItem] at hkv
        exact addSortEnum_enum (props_shape h4) kv hkv

/-- Witness for C3 at the scenario configuration: the name property of the
sort parameter of /person/search carries enum ["asc", "desc"]. -/
theorem c3_witness :
    ("/person/search", personItem) ∈ pathsOf (compileConfig personConfig) ∧
    ("name", personSortNameProp) ∈ sortPropsOfItem personItem ∧
    personSortNameProp.get? "enum" =
      some (.arr [.str "asc", .str "desc"]) := by
  have hm : ("/person/search", personItem) ∈
      pathsOf (compileConfig personConfig) := by
    show ("/person/search", personItem) ∈ [("/person/search", personItem)]
    exact List.mem_singleton.mpr rfl
  have hm2 : ("name", personSortNameProp) ∈ sortPropsOfItem personItem := by
    show ("name", personSortNameProp) ∈
      ("name", personSortNameProp) :: addSortEnum
        [("age", Json.obj [("type", Json.str "integer")])]
    exact List.mem_cons_self _ _
  exact ⟨hm, hm2,
    c3_theorem personConfig ("/person/search", personItem) hm
      ("name", personSortNameProp) hm2⟩

/-- Claim C4: for every resource type of a successfully compiled document,
the property name lists of the response attributes schema, the filter
parameter schema and the sort parameter schema each equal the field names
declared in that type's own field mapping — the existential is pinned to
the resource type the path item was built from, via its path string. -/
theorem c4_theorem (cfg : Json) (ts : List Json)
    (hts : cfg.get? "types" = some (.arr ts)) :
    ∀ pi ∈ pathsOf (compileConfig cfg), ∃ t ∈ ts,
      pi.1 = "/" ++ typeName t ++ "/search" ∧
      (attrPropsOfItem pi.2).map Prod.fst = fieldNames t ∧
      (filterPropsOfItem pi.2).map Prod.fst = fieldNames t ∧
      (sortPropsOfItem pi.2).map Prod.fst = fieldNames t := by
  intro pi hpi
  cases hc : compileConfig cfg with
  | error e =>
      rw [hc] at hpi
      simp [pathsOf] at hpi
  | ok doc =>
      obtain ⟨ts', kvs, hts', hb, hdoc⟩ := compile_ok_parts hc
      have hts2 : ts' = ts := by
        rw [hts] at hts'
        injection hts' with h
        injection h with h
        exact h.symm
      subst hts2
      rw [hc] at hpi
      have hpaths : pathsOf (Except.ok doc) = kvs := by
        rw [hdoc]
        rfl
      rw [hpaths] at hpi
      rcases buildPaths_ok_mem hb pi hpi with hmem | ⟨t, ht, hok⟩
      · simp at hmem
      · obtain ⟨nameJ, m, props, out, h1, h2, h3, h4, h5⟩ :=
          processType_ok_shape hok
        have hfn : fieldNames t = props.map Prod.fst := by
          simp only [fieldNames, dig_two_intro h2 h3]
        have hkeys := props_keys h4
        refine ⟨t, ht, ?_, ?_, ?_, ?_⟩
        · rw [h5]
          simp only [typeName, h1]
        · rw [h5]
          simp only [attrProps_pathItem, hkeys, hfn]
        · rw [h5]
          simp only [filterProps_pathItem, hkeys, hfn]
        · rw [h5]
          simp only [sortProps_pathItem, addSortEnum_keys, hkeys, hfn]

/-- Witness for C4 at the scenario configuration: the attributes, filter and
sort property names of /person/search all equal the declared field names
name, age of the person entry the path points back to. -/
theorem c4_witness :
    personConfig.get? "types" = some (.arr [personTypeEntry]) ∧
    ("/person/search", personItem) ∈ pathsOf (compileConfig personConfig) ∧
    ∃ t ∈ [personTypeEntry],
      "/person/search" = "/" ++ typeName t ++ "/search" ∧
      (attrPropsOfItem personItem).map Prod.fst = fieldNames t ∧
      (filterPropsOfItem personItem).map Prod.fst = fieldNames t ∧
      (sortPropsOfItem personItem).map Prod.fst = fieldNames t := by
  have hm : ("/person/search", personItem) ∈
      pathsOf (compileConfig personConfig) := by
    show ("/person/search", personItem) ∈ [("/person/search", personItem)]
    exact List.mem_singleton.mpr rfl
  exact ⟨rfl, hm,
    c4_theorem personConfig [personTypeEntry] rfl
      ("/person/search", personItem) hm⟩

/-- Claim C5: every path item of a compiled document carries, in this exact
order, one filter parameter, one sort parameter, the page parameter and the
collapse_uuids parameter, and nothing else. -/
theorem c5_theorem (cfg : Json) :
    ∀ pi ∈ pathsOf (compileConfig cfg),
      (paramsOfItem pi.2).map (fun p => p.get? "name") =
        [some (.str "filter"), some (.str "sort"), some (.str "page"),
         some (.str "collapse_uuids")] := by
  intro pi hpi
  cases hc : compileConfig cfg with
  | error e =>
      rw [hc] at hpi
      simp [pathsOf] at hpi
  | ok doc =>
      obtain ⟨ts, kvs, hts, hb, hdoc⟩ := compile_ok_parts hc
      rw [hc] at hpi
      have hpaths : pathsOf (Except.ok doc) = kvs := by
        rw [hdoc]
        rfl
      rw [hpaths] at hpi
      rcases buildPaths_ok_mem hb pi hpi with hmem | ⟨t, ht, hok⟩
      · simp at hmem
      · obtain ⟨nameJ, m, props, out, h1, h2, h3, h4, h5⟩ :=
          processType_ok_shape hok
        rw [h5]
        rfl

/-- Witness for C5 at the scenario configuration. -/
theorem c5_witness :
    ("/person/search", personItem) ∈ pathsOf (compileConfig personConfig) ∧
    (paramsOfItem personItem).map (fun p => p.get? "name") =
      [some (.str "filter"), some (.str "sort"), some (.str "page"),
       some (.str "collapse_uuids")] := by
  have hm : ("/person/search", personItem) ∈
      pathsOf (compileConfig personConfig) := by
    show ("/person/search", personItem) ∈ [("/person/search", personItem)]
    exact List.mem_singleton.mpr rfl
  exact ⟨hm, c5_theorem personConfig ("/person/search", personItem) hm⟩

/-- Claim C6: the page and collapse_uuids parameters are the identical
constants in every path item of every compiled document (hence across all
resource types of one document and across different input configurations);
page is an object schema with exactly the two integer properties size and
number, and collapse_uuids is a string schema whose enum is exactly the
singleton ["t"]. -/
theorem c6_theorem :
    (∀ cfg : Json, ∀ pi ∈ pathsOf (compileConfig cfg),
      (paramsOfItem pi.2).drop 2 = STATIC_PARAMETERS) ∧
    pageParameter.get? "schema" =
      some (.obj [("type", .str "object"),
        ("properties", .obj [("size", .obj [("type", .str "integer")]),
          ("number", .obj [("type", .str "integer")])])]) ∧
    collapseUuidsParameter.get? "schema" =
      some (.obj [("type", .str "string"), ("enum", .arr [.str "t"])]) := by
  refine ⟨?_, rfl, rfl⟩
  intro cfg pi hpi
  cases hc : compileConfig cfg with
  | error e =>
      rw [hc] at hpi
      simp [pathsOf] at hpi
  | ok doc =>
      obtain ⟨ts, kvs, hts, hb, hdoc⟩ := compile_ok_parts hc
      rw [hc] at hpi
      have hpaths : pathsOf (Except.ok doc) = kvs := by
        rw [hdoc]
        rfl
      rw [hpaths] at hpi
      rcases buildPaths_ok_mem hb pi hpi with hmem | ⟨t, ht, hok⟩
      · simp at hmem
      · obtain ⟨nameJ, m, props, out, h1, h2, h3, h4, h5⟩ :=
          processType_ok_shape hok
        rw [h5]
        rfl

/-- Witness for C6 at the scenario configuration. -/
theorem c6_witness :
    ("/person/search", personItem) ∈ pathsOf (compileConfig personConfig) ∧
    (paramsOfItem personItem).drop 2 = STATIC_PARAMETERS := by
  have hm : ("/person/search", personItem) ∈
      pathsOf (compileConfig personConfig) := by
    show ("/person/search", personItem) ∈ [("/person/search", personItem)]
    exact List.mem_singleton.mpr rfl
  exact ⟨hm, c6_theorem.1 personConfig ("/person/search", personItem) hm⟩

/-- Claim C7: the compile operation either returns a complete document or
fails with an error, never a partially populated document.  Failure
atomicity is structural: an error result carries no document at all.  On
success the document carries the fixed openapi version string and info
metadata, every resource type entry was processed to completion, and the
path derived from every resource type maps to a fully assembled path item
(with its get operation and its four parameters). -/
theorem c7_theorem (cfg : Json) (ts : List Json)
    (hts : cfg.get? "types" = some (.arr ts))
    (hok : resultIsOk (compileConfig cfg) = true) :
    docGet (compileConfig cfg) "openapi" = some (.str "3.0.0") ∧
    docGet (compileConfig cfg) "info" = some infoJson ∧
    (∀ t ∈ ts, resultIsOk (processType t) = true) ∧
    (∀ t ∈ ts,
      (assocGet (pathsOf (compileConfig cfg))
        ((processedPathItem t).1)).map itemAssembled = some true) := by
  obtain ⟨kvs, hb⟩ := buildPaths_ok_of_compile hts hok
  have heach := buildPaths_ok_each hb
  have hcompile : compileConfig cfg =
      .ok (.obj [("openapi", .str "3.0.0"), ("info", infoJson),
                 ("paths", .obj kvs)]) := by
    rw [compileConfig_eq hts, hb]
  refine ⟨by rw [hcompile]; rfl, by rw [hcompile]; rfl, heach, ?_⟩
  intro t ht
  rw [pathsOf_eq hts hb]
  have hins := @buildPaths_insertAll ts [] heach
  rw [hb] at hins
  injection hins with hins
  rw [hins, insertAll_assocGet]
  obtain ⟨item, hitem⟩ := lastWith_isSome_of_mem ht
  rw [hitem]
  obtain ⟨t', ht', h1', h2'⟩ := lastWith_mem hitem
  have hok' := heach t' ht'
  obtain ⟨pi', hpi'⟩ := (resultIsOk_iff _).mp hok'
  obtain ⟨nameJ, m, props, out, g1, g2, g3, g4, g5⟩ :=
    processType_ok_shape hpi'
  have hshape : item = pathItemJson (pyStr nameJ) out out
      (addSortEnum out) := by
    rw [← h2']
    simp only [processedPathItem, hpi', g5]
  show (some item).map itemAssembled = some true
  rw [hshape]
  rfl

/-- Witness for C7 at the scenario configuration. -/
theorem c7_witness :
    personConfig.get? "types" = some (.arr [personTypeEntry]) ∧
    resultIsOk (compileConfig personConfig) = true ∧
    docGet (compileConfig personConfig) "openapi" = some (.str "3.0.0") ∧
    (assocGet (pathsOf (compileConfig personConfig))
      ((processedPathItem personTypeEntry).1)).map itemAssembled =
        some true := by
  refine ⟨rfl, rfl, ?_, ?_⟩
  · exact (c7_theorem personConfig [personTypeEntry] rfl rfl).1
  · exact (c7_theorem personConfig [personTypeEntry] rfl rfl).2.2.2
      personTypeEntry (List.mem_singleton.mpr rfl)

/-- Claim C8, counterexample to the statement as frozen: `c8CexConfig` lacks
required structure (its second resource type entry has no
mappings.properties), so the claim predicts a MalformedConfiguration
failure, but the compile operation fails with UnsupportedFieldType instead,
because the first entry declares a float field and is processed first. -/
theorem c8_counterexample :
    configLacksStructure c8CexConfig = true ∧
    compileConfig c8CexConfig = .error (.UnsupportedFieldType "float") ∧
    isMalformedError (compileConfig c8CexConfig) = false :=
  ⟨rfl, rfl, rfl⟩

/-- Claim C8 (amended): a configuration with no top-level types sequence
fails with MalformedConfiguration "types"; and when a resource type entry
missing mappings.properties is reached (every entry before it processes
successfully), the compile operation fails with a MalformedConfiguration
error, which propagates unchanged to the caller, and no document is
produced. -/
theorem c8_amended_theorem :
    (∀ cfg : Json, cfg.get? "types" = none →
      compileConfig cfg = .error (.MalformedConfiguration "types")) ∧
    (∀ (cfg : Json) (ts pre : List Json) (bad : Json) (rest : List Json),
      cfg.get? "types" = some (.arr ts) →
      ts = pre ++ bad :: rest →
      (∀ t ∈ pre, resultIsOk (processType t) = true) →
      missingMappingsProps bad = true →
      isMalformedError (compileConfig cfg) = true) := by
  constructor
  · intro cfg h
    unfold compileConfig
    rw [h]
  · intro cfg ts pre bad rest hts hsplit hpre hbad
    obtain ⟨k, hk⟩ :=
      (isMalformedError_iff _).mp (processType_malformed hbad)
    have herr := @buildPaths_error_at pre bad rest []
      (CompileError.MalformedConfiguration k) hpre hk
    rw [compileConfig_eq hts, hsplit, herr]
    rfl

/-- Witness for C8 (amended): the empty configuration fails with
MalformedConfiguration "types", and a configuration whose second entry lacks
mappings fails with a MalformedConfiguration error. -/
theorem c8_amended_witness :
    (Json.obj []).get? "types" = none ∧
    compileConfig (Json.obj []) = .error (.MalformedConfiguration "types") ∧
    c8WitnessConfig.get? "types" =
      some (.arr ([personTypeEntry] ++ noMappingsEntry :: [])) ∧
    missingMappingsProps noMappingsEntry = true ∧
    isMalformedError (compileConfig c8WitnessConfig) = true := by
  refine ⟨rfl, c8_amended_theorem.1 (Json.obj []) rfl, rfl, rfl, ?_⟩
  exact c8_amended_theorem.2 c8WitnessConfig
    ([personTypeEntry] ++ noMappingsEntry :: []) [personTypeEntry]
    noMappingsEntry [] rfl rfl
    (fun t ht => by rw [List.mem_singleton.mp ht]; rfl) rfl

/-- Claim C9: in every path item of a compiled document the filter
parameter's per-field schema fragments equal, field by field, the response
attributes fragments, each being exactly an object with the single key
"type"; the sort properties are a fresh copy with the ["asc","desc"] enum
added, so neither the filter properties nor the attributes properties carry
an enum key. -/
theorem c9_theorem (cfg : Json) :
    ∀ pi ∈ pathsOf (compileConfig cfg),
      filterPropsOfItem pi.2 = attrPropsOfItem pi.2 ∧
      (∀ kv ∈ attrPropsOfItem pi.2, ∃ s,
        kv.2 = Json.obj [("type", Json.str s)]) ∧
      (∀ kv ∈ attrPropsOfItem pi.2, kv.2.get? "enum" = none) ∧
      (∀ kv ∈ filterPropsOfItem pi.2, kv.2.get? "enum" = none) ∧
      sortPropsOfItem pi.2 = addSortEnum (attrPropsOfItem pi.2) := by
  intro pi hpi
  cases hc : compileConfig cfg with
  | error e =>
      rw [hc] at hpi
      simp [pathsOf] at hpi
  | ok doc =>
      obtain ⟨ts, kvs, hts, hb, hdoc⟩ := compile_ok_parts hc
      rw [hc] at hpi
      have hpaths : pathsOf (Except.ok doc) = kvs := by
        rw [hdoc]
        rfl
      rw [hpaths] at hpi
      rcases buildPaths_ok_mem hb pi hpi with hmem | ⟨t, ht, hok⟩
      · simp at hmem
      · obtain ⟨nameJ, m, props, out, h1, h2, h3, h4, h5⟩ :=
          processType_ok_shape hok
        have hshape := props_shape h4
        have hnoenum : ∀ kv ∈ out, kv.2.get? "enum" = none := by
          intro kv hkv
          obtain ⟨s, hs⟩ := hshape kv hkv
          rw [hs]
          rfl
        rw [h5]
        simp only [filterProps_pathItem, attrProps_pathItem,
          sortProps_pathItem]
        exact ⟨trivial, hshape, hnoenum, hnoenum, trivial⟩

/-- Witness for C9 at the scenario configuration. -/
theorem c9_witness :
    ("/person/search", personItem) ∈ pathsOf (compileConfig personConfig) ∧
    filterPropsOfItem personItem = attrPropsOfItem personItem ∧
    sortPropsOfItem personItem = addSortEnum (attrPropsOfItem personItem) := by
  have hm : ("/person/search", personItem) ∈
      pathsOf (compileConfig personConfig) := by
    show ("/person/search", personItem) ∈ [("/person/search", personItem)]
    exact List.mem_singleton.mpr rfl
  have h := c9_theorem personConfig ("/person/search", personItem) hm
  exact ⟨hm, h.1, h.2.2.2.2⟩

/-- Claim C10: on a successful compile the paths mapping has pairwise
distinct keys; its key set is exactly the set of /name/search strings over
the names occurring in the input types sequence (so duplicated names yield a
single entry); and the entry at each path equals the path item derived from
the last entry of the types sequence carrying that path, as `lastWith`
selects it. -/
theorem c10_theorem (cfg : Json) (ts : List Json)
    (hts : cfg.get? "types" = some (.arr ts))
    (hok : resultIsOk (compileConfig cfg) = true) :
    ((pathsOf (compileConfig cfg)).map Prod.fst).Nodup ∧
    (∀ p : String, p ∈ (pathsOf (compileConfig cfg)).map Prod.fst ↔
      p ∈ ts.map (fun t => "/" ++ typeName t ++ "/search")) ∧
    (∀ p : String,
      assocGet (pathsOf (compileConfig cfg)) p = lastWith p ts) := by
  obtain ⟨kvs, hb⟩ := buildPaths_ok_of_compile hts hok
  have heach := buildPaths_ok_each hb
  have hins := @buildPaths_insertAll ts [] heach
  rw [hb] at hins
  injection hins with hins
  have hmapeq : ts.map (fun t => (processedPathItem t).1) =
      ts.map (fun t => "/" ++ typeName t ++ "/search") :=
    List.map_congr_left (fun t ht => ppi_path (heach t ht))
  rw [pathsOf_eq hts hb, hins]
  refine ⟨insertAll_keys_nodup (by simp), ?_, ?_⟩
  · intro p
    rw [insertAll_mem_keys, hmapeq]
    simp
  · intro p
    rw [insertAll_assocGet]
    cases hlw : lastWith p ts with
    | some item => rfl
    | none => rfl

/-- Witness for C10 at the duplicate-name configuration: the single entry at
/person/search is the path item of the second (last) person entry. -/
theorem c10_witness :
    c2CexConfig.get? "types" = some (.arr [dupEntryOne, dupEntryTwo]) ∧
    resultIsOk (compileConfig c2CexConfig) = true ∧
    assocGet (pathsOf (compileConfig c2CexConfig)) "/person/search" =
      lastWith "/person/search" [dupEntryOne, dupEntryTwo] ∧
    lastWith "/person/search" [dupEntryOne, dupEntryTwo] =
      some (processedPathItem dupEntryTwo).2 :=
  ⟨rfl, rfl,
   (c10_theorem c2CexConfig [dupEntryOne, dupEntryTwo] rfl rfl).2.2
     "/person/search",
   rfl⟩
